import Mathlib

/-
Verification development for the HTTP API layer of the moonfire-nvr web
module (`src/web.rs`).

Shallow embedding conventions:
  * Rust strings and byte slices are embedded as `List Char` (all string
    constants in the routed paths, query grammar and cookie handling are
    ASCII, so chars and bytes coincide on every branch that matters; the
    one place this needs an argument, `Path.decode`, is commented there).
  * `i32`, `u32`, `i64` values are embedded as `Int` / `Nat` with explicit
    bounds checks where the code parses them, and with explicit mod-2^32
    wraparound where the code can overflow (the `+ 1` on the inclusive end
    id in `Segments::parse`).
  * Fallible code returns `Option` or `Except`.
  * External collaborators (the recording database, the fMP4 builder, the
    uuid parser, base64 decoding of session ids) enter as oracle function
    parameters; control flow of `web.rs` around them is embedded exactly.
-/

namespace Web

/-- HTTP responses as built by `web.rs`: a status code, a header list and a
plain-text body.  `hyper` header insertion replaces any existing header of
the same name. -/
structure Resp where
  status : Nat
  headers : List (String × String)
  body : String
deriving Repr, DecidableEq

/-- `plain_response` from `web.rs`: given status, body, with a text/plain
content type header. -/
def plainResponse (status : Nat) (body : String) : Resp :=
  ⟨status, [("Content-Type", "text/plain")], body⟩

/-- `not_found` helper from `web.rs`. -/
def notFound (body : String) : Resp := plainResponse 404 body

/-- `bad_req` helper from `web.rs`. -/
def badReq (body : String) : Resp := plainResponse 400 body

/-- `internal_server_err` helper from `web.rs`. -/
def internalServerErr (body : String) : Resp := plainResponse 500 body

/-- `i32::MAX`. -/
def i32max : Int := 2147483647

/-- `u32::MAX`. -/
def u32max : Nat := 4294967295

/-- `i64::MAX`, used by `stream_view_mp4` via `s.end_time.unwrap_or(i64::max_value())`. -/
def i64max : Int := 9223372036854775807

/-- Two-complement 32-bit wraparound, i.e. the value of an `i32` arithmetic
result computed mod 2^32 (release-mode Rust overflow semantics). -/
def wrap32 (x : Int) : Int := (x + 2147483648) % 4294967296 - 2147483648

/-- The parsed `s=` query parameter (struct `Segments` in `web.rs`).  The
Rust field `ids : Range<i32>` is flattened into `idsStart`/`idsEnd`
(`end` is a reserved word in Lean). -/
structure Segments where
  idsStart : Int
  idsEnd : Int
  openId : Option Nat
  startTime : Int
  endTime : Option Int
deriving Repr, DecidableEq

/-- Longest leading run of ASCII decimal digits, with the remainder
(the greedy `\d+`, which is equivalent to the backtracking regex here
because every neighbouring token of the grammar starts with a non-digit). -/
def takeDigits : List Char → List Char × List Char
  | [] => ([], [])
  | c :: tl =>
    if c.isDigit then
      let p := takeDigits tl
      (c :: p.1, p.2)
    else ([], c :: tl)

/-- The capture groups of `SEGMENTS_RE`, the anchored regex
`(\d+)(-\d+)?(@\d+)?(?:\.(\d+)?-(\d+)?)?` of `web.rs`.  `g45` is the
optional non-capturing `\.(\d+)?-(\d+)?` tail; its two components are the
capture groups 4 and 5. -/
structure SegCaps where
  g1 : List Char
  g2 : Option (List Char)
  g3 : Option (List Char)
  g45 : Option (Option (List Char) × Option (List Char))
deriving Repr, DecidableEq

/-- Matching of `SEGMENTS_RE` against the whole input.  Each optional group
either matches completely or consumes nothing (on a partial match, e.g. a
`-` not followed by a digit, the leftover characters make the final
emptiness test fail, exactly as regex backtracking would reject).
Note the regex class `\d` is Unicode-aware in Rust, but every capture
containing a non-ASCII digit is subsequently rejected by
`from_str` in `Segments::parse`; the embedding folds these two rejections
together by treating `\d` as ASCII `0-9`. -/
def segCaptures (l : List Char) : Option SegCaps :=
  let p1 := takeDigits l
  if p1.1.isEmpty then none else
  let p2 : Option (List Char) × List Char :=
    match p1.2 with
    | '-' :: tl =>
      let d := takeDigits tl
      if d.1.isEmpty then (none, p1.2) else (some d.1, d.2)
    | _ => (none, p1.2)
  let p3 : Option (List Char) × List Char :=
    match p2.2 with
    | '@' :: tl =>
      let d := takeDigits tl
      if d.1.isEmpty then (none, p2.2) else (some d.1, d.2)
    | _ => (none, p2.2)
  let p4 : Option (Option (List Char) × Option (List Char)) × List Char :=
    match p3.2 with
    | '.' :: tl =>
      let d4 := takeDigits tl
      match d4.2 with
      | '-' :: tl2 =>
        let d5 := takeDigits tl2
        (some ((if d4.1.isEmpty then none else some d4.1),
               (if d5.1.isEmpty then none else some d5.1)), d5.2)
      | _ => (none, p3.2)
    | _ => (none, p3.2)
  if p4.2.isEmpty then some ⟨p1.1, p2.1, p3.1, p4.1⟩ else none

/-- Numeric value of a list of ASCII digits. -/
def digitsToNat (l : List Char) : Nat :=
  l.foldl (fun a c => a * 10 + (c.toNat - 48)) 0

/-- `i32::from_str` on a digit-only capture: fails on overflow. -/
def parseI32 (l : List Char) : Option Int :=
  if l.isEmpty then none
  else if (digitsToNat l : Int) ≤ i32max then some (digitsToNat l : Int)
  else none

/-- `u32::from_str` on a digit-only capture: fails on overflow. -/
def parseU32 (l : List Char) : Option Nat :=
  if l.isEmpty then none
  else if digitsToNat l ≤ u32max then some (digitsToNat l)
  else none

/-- `i64::from_str` on a digit-only capture: fails on overflow. -/
def parseI64 (l : List Char) : Option Int :=
  if l.isEmpty then none
  else if (digitsToNat l : Int) ≤ i64max then some (digitsToNat l : Int)
  else none

/-- `Segments::parse` from `web.rs`, step for step: regex match, start id,
inclusive end id plus one (an `i32` addition, hence the `wrap32`),
open id, the range check, relative start time, relative end time. -/
def Segments.parse (input : List Char) : Option Segments :=
  match segCaptures input with
  | none => none
  | some caps =>
    match parseI32 caps.g1 with
    | none => none
    | some ids_start =>
      match (match caps.g2 with
             | some m => parseI32 m
             | none => some ids_start) with
      | none => none
      | some endIncl =>
        let ids_end := wrap32 (endIncl + 1)
        match (match caps.g3 with
               | some m => (parseU32 m).map some
               | none => some none) with
        | none => none
        | some open_id =>
          if ids_start < 0 ∨ ids_end ≤ ids_start then none else
          match (match caps.g45.bind Prod.fst with
                 | some m => parseI64 m
                 | none => some 0) with
          | none => none
          | some start_time =>
            if start_time < 0 then none else
            match caps.g45.bind Prod.snd with
            | some m =>
              match parseI64 m with
              | none => none
              | some e =>
                if e ≤ start_time then none
                else some ⟨ids_start, ids_end, open_id, start_time, some e⟩
            | none => some ⟨ids_start, ids_end, open_id, start_time, none⟩

/-- One row yielded by `db.list_recordings_by_id` inside `stream_view_mp4`
(fields of `db::ListRecordingsRow` that the handler reads).  `id` is
`r.id.recording()` (an `i32`), `openId` is `r.open_id` (a `u32`) and
`duration90k` is `r.duration_90k` (an `i32`; the database only stores
nonnegative durations, which enters the theorems as a hypothesis).
`appendOk` is the success of the external `builder.append` call for this
row, whose error the handler propagates with `?`. -/
structure Row where
  id : Int
  openId : Nat
  duration90k : Int
  appendOk : Bool
deriving Repr, DecidableEq

/-- A recording appended to the fMP4 builder: its id and the
`start .. end` 90 kHz subrange passed to `builder.append`. -/
structure AppendedSeg where
  rid : Int
  segStart : Int
  segStop : Int
deriving Repr, DecidableEq

/-- The `bail!` errors raised inside the `list_recordings_by_id` closure of
`stream_view_mp4`. -/
inductive LoopErr where
  | openMismatch (rid : Int) (got expected : Nat)
  | gap (streamId : Int) (missing : Int)
  | appendFailed (rid : Int)
deriving Repr, DecidableEq

/-- The mutable state of the closure: `prev`, `cur_off` and the recordings
appended to the builder so far. -/
structure LoopSt where
  prev : Option Int
  curOff : Int
  segs : List AppendedSeg
deriving Repr, DecidableEq

/-- The message text carried by each closure `bail!`, as formatted by
`stream_view_mp4` (and, for `appendFailed`, by the builder). -/
def loopErrMsg : LoopErr → String
  | .openMismatch rid got expected =>
    "recording " ++ toString rid ++ " has open id " ++ toString got ++
      ", requested " ++ toString expected
  | .gap streamId missing =>
    "no such recording " ++ toString streamId ++ "/" ++ toString missing
  | .appendFailed rid => "builder append failed on recording " ++ toString rid

/-- The tail of the closure body: the segment-append decision.  Mirrors
`web.rs`: `end_time = s.end_time.unwrap_or(i64::max_value())`,
append when `s.start_time <= cur_off + d && cur_off < end_time` with local
subrange `max(0, start_time - cur_off) .. min(d, end_time - cur_off)`,
then `cur_off += d` (and `prev` was set to the row id just before). -/
def segAppend (s : Segments) (st : LoopSt) (r : Row) : Except LoopErr LoopSt :=
  let endTime := s.endTime.getD i64max
  let d := r.duration90k
  if s.startTime ≤ st.curOff + d ∧ st.curOff < endTime then
    let segStart := max 0 (s.startTime - st.curOff)
    let segStop := min d (endTime - st.curOff)
    if r.appendOk then
      .ok ⟨some r.id, st.curOff + d, st.segs ++ [⟨r.id, segStart, segStop⟩]⟩
    else .error (.appendFailed r.id)
  else
    .ok ⟨some r.id, st.curOff + d, st.segs⟩

/-- The missing-recording check of the closure: on the first row require
`r.id == s.ids.start`, afterwards require `r.id == prev + 1`. -/
def segGapCheck (streamId : Int) (s : Segments) (st : LoopSt) (r : Row) :
    Except LoopErr LoopSt :=
  match st.prev with
  | none =>
    if r.id = s.idsStart then segAppend s st r
    else .error (.gap streamId s.idsStart)
  | some p =>
    if r.id ≠ p + 1 then .error (.gap streamId (p + 1))
    else segAppend s st r

/-- One invocation of the `list_recordings_by_id` closure: open-id check,
then gap check, then the append decision. -/
def segRowStep (streamId : Int) (s : Segments) (st : LoopSt) (r : Row) :
    Except LoopErr LoopSt :=
  match s.openId with
  | some o =>
    if r.openId ≠ o then .error (.openMismatch r.id r.openId o)
    else segGapCheck streamId s st r
  | none => segGapCheck streamId s st r

/-- The iteration of `db.list_recordings_by_id` over the rows it yields: the
closure runs per row and its first error aborts the iteration. -/
def segLoop (streamId : Int) (s : Segments) : LoopSt → List Row → Except LoopErr LoopSt
  | st, [] => .ok st
  | st, r :: rest =>
    match segRowStep streamId s st r with
    | .error e => .error e
    | .ok st₁ => segLoop streamId s st₁ rest

/-- The whole handling of one `s=` parameter value by `stream_view_mp4`
after parsing: the iteration (whose closure errors are mapped by
`.map_err(internal_server_err)`, i.e. to status 500), then the two
post-iteration missing-recording checks (mapped by `not_found`, status
404), then the end-time bound check (`BAD_REQUEST`, status 400). -/
def runSegs (streamId : Int) (s : Segments) (rows : List Row) : Except Resp LoopSt :=
  match segLoop streamId s ⟨none, 0, []⟩ rows with
  | .error e => .error (internalServerErr (loopErrMsg e))
  | .ok st =>
    match st.prev with
    | some id =>
      if s.idsEnd ≠ id + 1 then
        .error (notFound ("no such recording " ++ toString streamId ++ "/" ++
          toString (s.idsEnd - 1)))
      else
        match s.endTime with
        | some e =>
          if e > st.curOff then
            .error (badReq ("end time " ++ toString e ++
              " is beyond specified recordings"))
          else .ok st
        | none => .ok st
    | none =>
      .error (notFound ("no such recording " ++ toString streamId ++ "/" ++
        toString s.idsStart))

/-- Modelled from the spec: `db::StreamType` (in the `db` crate, which is
not part of `src/`) — the known stream-type enumeration, `main` and `sub`. -/
inductive StreamType where
  | MAIN
  | SUB
deriving Repr, DecidableEq

/-- Modelled from the spec: `db::StreamType::parse` — the stream-type token
must be one of the known enumeration. -/
def StreamType.parse (l : List Char) : Option StreamType :=
  if l = ['m', 'a', 'i', 'n'] then some .MAIN
  else if l = ['s', 'u', 'b'] then some .SUB
  else none

/-- Value of one hex digit (`0-9`, lowercase `a-f`). -/
def hexVal (c : Char) : Option Nat :=
  if '0' ≤ c ∧ c ≤ '9' then some (c.toNat - 48)
  else if 'a' ≤ c ∧ c ≤ 'f' then some (c.toNat - 97 + 10)
  else none

/-- Hex pairs to bytes, failing on a non-hex character or an odd length. -/
def dehexPairs : List Char → Option (List Nat)
  | [] => some []
  | a :: b :: tl =>
    match hexVal a, hexVal b, dehexPairs tl with
    | some x, some y, some r => some ((16 * x + y) :: r)
    | _, _, _ => none
  | _ => none

/-- Modelled from the spec: `strutil::dehex` (in the external `base` crate,
not part of `src/`) — decodes exactly 40 hex characters into 20 bytes,
failing on any other input. -/
def dehex (l : List Char) : Option (List Nat) :=
  if l.length = 40 then dehexPairs l else none

/-- The route enumeration `Path` of `web.rs`, parametrised by the types the
external uuid and stream-type parsers produce. -/
inductive Path (U S : Type) where
  | TopLevel
  | Request
  | InitSegment (sha1 : List Nat) (debug : Bool)
  | Camera (uuid : U)
  | Signals
  | StreamRecordings (uuid : U) (t : S)
  | StreamViewMp4 (uuid : U) (t : S) (debug : Bool)
  | StreamViewMp4Segment (uuid : U) (t : S) (debug : Bool)
  | StreamLiveMp4Segments (uuid : U) (t : S)
  | Login
  | Logout
  | Static
  | NotFound
deriving Repr, DecidableEq

/-- `Path::decode` from `web.rs`, with the external `Uuid::parse_str`
(`uuidP`), `db::StreamType::parse` (`stP`) and `strutil::dehex` (`deh`) as
parameters.  The embedding works on chars where the Rust works on bytes;
the two agree because every literal compared against is ASCII, and in the
single length-sensitive branch (`/init/`, which insists on length 50 and
40 hex characters) any non-ASCII input is `NotFound` under both readings. -/
def Path.decode {U S : Type} (uuidP : List Char → Option U)
    (stP : List Char → Option S) (deh : List Char → Option (List Nat))
    (path : List Char) : Path U S :=
  if ¬ (['/', 'a', 'p', 'i', '/'].isPrefixOf path) then .Static else
  -- path = &path["/api".len()..]
  let path := path.drop 4
  if path = ['/'] then .TopLevel else
  if path = ['/', 'l', 'o', 'g', 'i', 'n'] then .Login else
  if path = ['/', 'l', 'o', 'g', 'o', 'u', 't'] then .Logout else
  if path = ['/', 'r', 'e', 'q', 'u', 'e', 's', 't'] then .Request else
  if path = ['/', 's', 'i', 'g', 'n', 'a', 'l', 's'] then .Signals else
  if ['/', 'i', 'n', 'i', 't', '/'].isPrefixOf path then
    let debug := ['.', 't', 'x', 't'].isSuffixOf path
    let path := if debug then path.take (path.length - 4) else path
    if path.length ≠ 50 ∨ ¬ (['.', 'm', 'p', '4'].isSuffixOf path) then .NotFound else
    match deh ((path.drop 6).take 40) with
    | some sha1 => .InitSegment sha1 debug
    | none => .NotFound
  else
  if ¬ (['/', 'c', 'a', 'm', 'e', 'r', 'a', 's', '/'].isPrefixOf path) then .NotFound else
  let path := path.drop 9
  match path.findIdx? (fun c => c == '/') with
  | none => .NotFound
  | some slash =>
    let uuidStr := path.take slash
    let path := path.drop (slash + 1)
    match uuidP uuidStr with
    | none => .NotFound
    | some uuid =>
      if path.isEmpty then .Camera uuid else
      match path.findIdx? (fun c => c == '/') with
      | none => .NotFound
      | some slash2 =>
        -- (type_, path) = path.split_at(slash); path keeps its leading slash
        let typeStr := path.take slash2
        let path := path.drop slash2
        match stP typeStr with
        | none => .NotFound
        | some t =>
          if path = ['/', 'r', 'e', 'c', 'o', 'r', 'd', 'i', 'n', 'g', 's'] then
            .StreamRecordings uuid t
          else if path = ['/', 'v', 'i', 'e', 'w', '.', 'm', 'p', '4'] then
            .StreamViewMp4 uuid t false
          else if path = ['/', 'v', 'i', 'e', 'w', '.', 'm', 'p', '4', '.', 't', 'x', 't'] then
            .StreamViewMp4 uuid t true
          else if path = ['/', 'v', 'i', 'e', 'w', '.', 'm', '4', 's'] then
            .StreamViewMp4Segment uuid t false
          else if path = ['/', 'v', 'i', 'e', 'w', '.', 'm', '4', 's', '.', 't', 'x', 't'] then
            .StreamViewMp4Segment uuid t true
          else if path = ['/', 'l', 'i', 'v', 'e', '.', 'm', '4', 's'] then
            .StreamLiveMp4Segments uuid t
          else .NotFound

/-- `slice::split` on `b';'` as used by `extract_sid`: `n` separators yield
`n + 1` (possibly empty) pieces. -/
def splitSemi : List Char → List (List Char)
  | [] => [[]]
  | c :: tl =>
    if c = ';' then [] :: splitSemi tl
    else
      match splitSemi tl with
      | h :: t => (c :: h) :: t
      | [] => [[c]]

/-- The body of the `extract_sid` loop for one cookie: trim a single
leading space, require the `s=` prefix, then attempt the base64 decode
(`auth::RawSessionId::decode_base64`, an external `db`-crate function,
passed in as `dec`).  A decode failure yields `none` and the caller keeps
scanning. -/
def tryCookie {σ : Type} (dec : List Char → Option σ) (cookie : List Char) : Option σ :=
  let cookie := if cookie.take 1 = [' '] then cookie.drop 1 else cookie
  if ['s', '='].isPrefixOf cookie then dec (cookie.drop 2) else none

/-- `extract_sid` from `web.rs`: the first `s=`-prefixed cookie of the
`Cookie` header that decodes successfully, scanning left to right. -/
def extract_sid {σ : Type} (dec : List Char → Option σ)
    (cookieHdr : Option (List Char)) : Option σ :=
  match cookieHdr with
  | none => none
  | some hdr => (splitSemi hdr).findSome? (tryCookie dec)

/-- `db::Permissions` (a `db`-crate protobuf message; booleans default to
false), restricted to the fields `web.rs` reads. -/
structure Permissions where
  viewVideo : Bool := false
  readCameraConfigs : Bool := false
  updateSignals : Bool := false
deriving Repr, DecidableEq

/-- `json::Session`: the session descriptor a successful authentication
attaches to the caller. -/
structure SessionJson where
  username : String
  csrf : String
deriving Repr, DecidableEq

/-- `Caller` from `web.rs`. -/
structure Caller where
  permissions : Permissions
  session : Option SessionJson
deriving Repr, DecidableEq

/-- The error kinds of `base::ErrorKind` that `web.rs` distinguishes. -/
inductive ErrorKind where
  | Unauthenticated
  | PermissionDenied
  | InvalidArgument
  | NotFound
  | Internal
deriving Repr, DecidableEq

/-- `base::Error`: an error kind plus its message. -/
structure BaseError where
  kind : ErrorKind
  msg : String
deriving Repr, DecidableEq

/-- `from_base_error` from `web.rs`: the error-kind to HTTP-status mapping,
serving the message as a plain-text body. -/
def from_base_error (e : BaseError) : Resp :=
  let status := match e.kind with
    | .PermissionDenied | .Unauthenticated => 401
    | .InvalidArgument => 400
    | .NotFound => 404
    | _ => 500
  plainResponse status e.msg

/-- The environment `ServiceInner::authenticate` consults: the base64
session-id decoder, the database `authenticate_session` call (hashing of
the raw id and the auth-request are folded into the oracle; an `Err` from
the database and "no such session" are deliberately conflated, as in the
code) and the configured `allow_unauthenticated_permissions`. -/
structure AuthCtx (σ : Type) where
  sidDec : List Char → Option σ
  dbAuth : σ → Option (Permissions × SessionJson)
  anonPerms : Option Permissions

/-- The fall-through tail of `ServiceInner::authenticate`, reached when no
cookie was present or the database did not authenticate the session. -/
def authFallback {σ : Type} (ctx : AuthCtx σ) (unauthPath : Bool) :
    Except BaseError Caller :=
  match ctx.anonPerms with
  | some s => .ok ⟨s, none⟩
  | none =>
    if unauthPath then .ok ⟨{}, none⟩
    else .error ⟨.Unauthenticated, "unauthenticated"⟩

/-- `ServiceInner::authenticate` from `web.rs`. -/
def authenticate {σ : Type} (ctx : AuthCtx σ) (cookieHdr : Option (List Char))
    (unauthPath : Bool) : Except BaseError Caller :=
  match extract_sid ctx.sidDec cookieHdr with
  | some sid =>
    match ctx.dbAuth sid with
    | some ps => .ok ⟨ps.1, some ps.2⟩
    | none => authFallback ctx unauthPath
  | none => authFallback ctx unauthPath

/-- `csrf_matches` from `web.rs`: constant-time equality of the supplied
token with the base64 encoding of the session CSRF; the session CSRF is
modelled already encoded, so this is string equality. -/
def csrfMatches (provided : String) (sessionCsrf : String) : Bool :=
  provided == sessionCsrf

/-- `auth::RevocationReason` (from the `db` crate), restricted to the value
`web.rs` uses. -/
inductive RevocationReason where
  | LoggedOut
deriving Repr, DecidableEq

/-- Environment for `ServiceInner::logout`: session-id decoder, database
session authentication keyed by the (hashed) id, and whether
`revoke_session` succeeds. -/
structure LogoutCtx (σ : Type) where
  sidDec : List Char → Option σ
  dbAuth : σ → Option SessionJson
  revokeOk : Bool

/-- The `s=; Max-Age=0; Path=/` clearing cookie appended by `logout`. -/
def clearCookieHdr : String × String := ("Set-Cookie", "s=; Max-Age=0; Path=/")

/-- `ServiceInner::logout` from `web.rs`.  `bodyCsrf` is the result of the
serde parse of the JSON body (`json::LogoutRequest`).  The second component
of the result records the session revocation performed, if any. -/
def logout {σ : Type} (ctx : LogoutCtx σ) (cookieHdr : Option (List Char))
    (bodyCsrf : Option String) : Except Resp Resp × Option RevocationReason :=
  match bodyCsrf with
  | none => (.error (badReq ("bad logout request json")), none)
  | some csrf =>
    match extract_sid ctx.sidDec cookieHdr with
    | none => (.ok ⟨204, [], ""⟩, none)
    | some sid =>
      match ctx.dbAuth sid with
      | some s =>
        if csrfMatches csrf s.csrf then
          if ctx.revokeOk then
            (.ok ⟨204, [clearCookieHdr], ""⟩, some .LoggedOut)
          else (.error (internalServerErr ("revoke_session failed")), none)
        else (.error (badReq ("logout with incorrect csrf token")), none)
      | none => (.ok ⟨204, [clearCookieHdr], ""⟩, none)

/-- `HeaderMap::insert`: replaces any existing header with the same name. -/
def insertHeader (name value : String) (hs : List (String × String)) :
    List (String × String) :=
  (name, value) :: hs.filter (fun p => p.1 != name)

/-- The response actually sent for a handler result: `wrap` in
`Service::serve` merges the two branches (`r.or_else(|e| ok(e))`) and, when
`is_private`, inserts `Cache-Control: private`. -/
def wrap (isPrivate : Bool) (r : Except Resp Resp) : Resp :=
  let resp := match r with | .ok resp => resp | .error resp => resp
  if isPrivate then ⟨resp.status, insertHeader "Cache-Control" "private" resp.headers, resp.body⟩
  else resp

/-- The `always_allow_unauthenticated` route predicate of `Service::serve`. -/
def alwaysAllowUnauthenticated {U S : Type} : Path U S → Bool
  | .NotFound | .Request | .Login | .Logout | .Static => true
  | _ => false

/-- A request as `Service::serve` consumes it: its URI path and its
`Cookie` header. -/
structure Req where
  path : List Char
  cookie : Option (List Char)

/-- Environment for `Service::serve`: the authentication environment, the
three external parsers of `Path::decode`, and one oracle giving the result
of whichever route handler runs (the handlers themselves are modelled
separately where a claim needs them). -/
structure ServeCtx (U S σ : Type) where
  auth : AuthCtx σ
  uuidP : List Char → Option U
  stP : List Char → Option S
  deh : List Char → Option (List Nat)
  handler : Path U S → Caller → Except Resp Resp

/-- `Service::serve` from `web.rs`: decode the path, authenticate (its
failure returns `from_base_error` directly, without `wrap`), then dispatch;
every route except `Static` wraps with `is_private = true`, `Static` with
`false`, and `NotFound` serves a literal 404. -/
def serve {U S σ : Type} (ctx : ServeCtx U S σ) (req : Req) : Resp :=
  let p := Path.decode ctx.uuidP ctx.stP ctx.deh req.path
  match authenticate ctx.auth req.cookie (alwaysAllowUnauthenticated p) with
  | .error e => from_base_error e
  | .ok caller =>
    match p with
    | .Static => wrap false (ctx.handler .Static caller)
    | .NotFound => wrap true (.error (notFound ("path not understood")))
    | other => wrap true (ctx.handler other caller)


-- ## Parse soundness (claims C2 and C9)

lemma parseI32_bounds {l : List Char} {v : Int} (h : parseI32 l = some v) :
    0 ≤ v ∧ v ≤ i32max := by
  unfold parseI32 at h
  split at h
  · exact absurd h (by simp)
  · split at h
    · cases h; exact ⟨Int.ofNat_nonneg _, by assumption⟩
    · exact absurd h (by simp)

lemma wrap32_succ_pos {a v : Int} (h0 : 0 ≤ a) (hv : 0 ≤ v) (hvmax : v ≤ i32max)
    (hgt : a < wrap32 (v + 1)) : wrap32 (v + 1) = v + 1 ∧ v < i32max := by
  unfold wrap32 i32max at *
  omega

theorem parse_spec (l : List Char) (seg : Segments) (h : Segments.parse l = some seg) :
    ∃ caps, segCaptures l = some caps ∧
      parseI32 caps.g1 = some seg.idsStart ∧
      0 ≤ seg.idsStart ∧ seg.idsStart < seg.idsEnd ∧ 0 ≤ seg.startTime ∧
      (∀ e, seg.endTime = some e → seg.startTime < e) ∧
      (caps.g2 = none → seg.idsEnd = seg.idsStart + 1) ∧
      (∀ m, caps.g2 = some m → ∃ v, parseI32 m = some v ∧ v < i32max ∧ seg.idsEnd = v + 1) ∧
      (caps.g45.bind Prod.fst = none → seg.startTime = 0) ∧
      (caps.g45.bind Prod.snd = none → seg.endTime = none) := by
  unfold Segments.parse at h
  cases hc : segCaptures l with
  | none => rw [hc] at h; simp at h
  | some caps =>
  rw [hc] at h; dsimp only at h
  refine ⟨caps, rfl, ?_⟩
  cases h1 : parseI32 caps.g1 with
  | none => rw [h1] at h; simp at h
  | some ids_start =>
  rw [h1] at h; dsimp only at h
  have hb1 := parseI32_bounds h1
  -- the inclusive end id (both capture-2 branches continue identically)
  have key : ∀ (endIncl : Int), 0 ≤ endIncl → endIncl ≤ i32max →
      (match (match caps.g3 with
              | some m => Option.map some (parseU32 m)
              | none => some none) with
       | none => none
       | some open_id =>
         if ids_start < 0 ∨ wrap32 (endIncl + 1) ≤ ids_start then none
         else
           match (match caps.g45.bind Prod.fst with
                  | some m => parseI64 m
                  | none => some 0) with
           | none => none
           | some start_time =>
             if start_time < 0 then none
             else
               match caps.g45.bind Prod.snd with
               | some m =>
                 match parseI64 m with
                 | none => none
                 | some e =>
                   if e ≤ start_time then none
                   else some ⟨ids_start, wrap32 (endIncl + 1), open_id, start_time, some e⟩
               | none => some ⟨ids_start, wrap32 (endIncl + 1), open_id, start_time, none⟩) = some seg →
      seg.idsStart = ids_start ∧ seg.idsEnd = endIncl + 1 ∧ endIncl < i32max ∧
      0 ≤ seg.idsStart ∧ seg.idsStart < seg.idsEnd ∧ 0 ≤ seg.startTime ∧
      (∀ e, seg.endTime = some e → seg.startTime < e) ∧
      (caps.g45.bind Prod.fst = none → seg.startTime = 0) ∧
      (caps.g45.bind Prod.snd = none → seg.endTime = none) := by
    intro endIncl he0 hemax htail
    cases h3 : (match caps.g3 with
                | some m => Option.map some (parseU32 m)
                | none => some none) with
    | none => rw [h3] at htail; simp at htail
    | some open_id =>
    rw [h3] at htail; dsimp only at htail
    split at htail
    · simp at htail
    next hrange =>
    push_neg at hrange
    obtain ⟨hs0, hslt⟩ := hrange
    have hw := wrap32_succ_pos hs0 he0 hemax hslt
    cases h4 : (match caps.g45.bind Prod.fst with
                | some m => parseI64 m
                | none => some 0) with
    | none => rw [h4] at htail; simp at htail
    | some start_time =>
    rw [h4] at htail; dsimp only at htail
    split at htail
    · simp at htail
    next hstn =>
    push_neg at hstn
    cases h5 : caps.g45.bind Prod.snd with
    | none =>
      rw [h5] at htail; dsimp only at htail
      cases htail
      refine ⟨rfl, hw.1, hw.2, hs0, hslt, hstn, by simp, ?_, fun _ => rfl⟩
      intro h45
      rw [h45] at h4
      simp at h4
      show start_time = 0
      omega
    | some m5 =>
      rw [h5] at htail; dsimp only at htail
      cases h6 : parseI64 m5 with
      | none => rw [h6] at htail; simp at htail
      | some e6 =>
      rw [h6] at htail; dsimp only at htail
      split at htail
      · simp at htail
      next hgt =>
      push_neg at hgt
      cases htail
      refine ⟨rfl, hw.1, hw.2, hs0, hslt, hstn, ?_, ?_, ?_⟩
      · intro e he
        cases he
        exact hgt
      · intro h45
        rw [h45] at h4
        simp at h4
        show start_time = 0
        omega
      · intro hsnd
        simp [h5] at hsnd
  -- dispatch on the optional end-id capture
  cases hg2 : caps.g2 with
  | none =>
    rw [hg2] at h; dsimp only at h
    have k := key ids_start hb1.1 hb1.2 h
    refine ⟨?_, k.2.2.2.1, k.2.2.2.2.1, k.2.2.2.2.2.1,
            k.2.2.2.2.2.2.1, ?_, ?_, k.2.2.2.2.2.2.2.1, k.2.2.2.2.2.2.2.2⟩
    · rw [k.1]
    · intro _
      rw [k.1]
      exact k.2.1
    · intro m hm
      exact absurd hm (by simp)
  | some m0 =>
    rw [hg2] at h; dsimp only at h
    cases h2 : parseI32 m0 with
    | none => rw [h2] at h; simp at h
    | some v =>
    rw [h2] at h; dsimp only at h
    have hb2 := parseI32_bounds h2
    have k := key v hb2.1 hb2.2 h
    refine ⟨?_, k.2.2.2.1, k.2.2.2.2.1, k.2.2.2.2.2.1,
            k.2.2.2.2.2.2.1, ?_, ?_, k.2.2.2.2.2.2.2.1, k.2.2.2.2.2.2.2.2⟩
    · rw [k.1]
    · intro hn
      exact absurd hn (by simp)
    · intro m hm
      cases hm
      exact ⟨v, h2, k.2.2.1, k.2.1⟩

/-- Claim C2: every selection accepted by `Segments::parse` satisfies
`ids.start ≥ 0`, `ids.end > ids.start`, `start_time ≥ 0` and, when present,
`end_time > start_time`; an absent end id yields the single-recording range
`[id, id + 1)`; a present end id is inclusive and converted to a half-open
range by adding one; `start_time` defaults to 0 and `end_time` to
unbounded; and every input outside the grammar is rejected. -/
theorem segments_parse_valid (l : List Char) :
    (∀ seg, Segments.parse l = some seg →
      0 ≤ seg.idsStart ∧ seg.idsStart < seg.idsEnd ∧ 0 ≤ seg.startTime ∧
      (∀ e, seg.endTime = some e → seg.startTime < e) ∧
      (∀ caps, segCaptures l = some caps →
        (caps.g2 = none → seg.idsEnd = seg.idsStart + 1) ∧
        (∀ m v, caps.g2 = some m → parseI32 m = some v → seg.idsEnd = v + 1) ∧
        (caps.g45.bind Prod.fst = none → seg.startTime = 0) ∧
        (caps.g45.bind Prod.snd = none → seg.endTime = none))) ∧
    (segCaptures l = none → Segments.parse l = none) := by
  constructor
  · intro seg h
    obtain ⟨caps, hc, hpi, h0, hlt, hst, hend, hg2n, hg2s, hf, hs⟩ := parse_spec l seg h
    refine ⟨h0, hlt, hst, hend, ?_⟩
    intro caps2 hc2
    rw [hc] at hc2
    cases hc2
    refine ⟨hg2n, ?_, hf, hs⟩
    intro m v hm hv
    obtain ⟨v2, hv2, hvm, he⟩ := hg2s m hm
    rw [hv] at hv2
    cases hv2
    exact he
  · intro hc
    unfold Segments.parse
    rw [hc]

theorem segments_parse_valid_witness :
    Segments.parse ("1-5.26-42".toList) = some ⟨1, 6, none, 26, some 42⟩ ∧
    0 ≤ (1 : Int) ∧ (1 : Int) < 6 ∧ 0 ≤ (26 : Int) ∧ (26 : Int) < 42 :=
  have hp : Segments.parse ("1-5.26-42".toList) = some ⟨1, 6, none, 26, some 42⟩ := by decide
  have h := (segments_parse_valid ("1-5.26-42".toList)).1 ⟨1, 6, none, 26, some 42⟩ hp
  ⟨hp, h.1, h.2.1, h.2.2.1, h.2.2.2.1 42 rfl⟩

/-- Claim C9: the end-id-plus-one computation is 32-bit wraparound
arithmetic, yet no accepted selection violates `ids.start < ids.end`: an
input whose start or inclusive end id is `i32::MAX = 2147483647` wraps to
`-2147483648` and is rejected by the range check. -/
theorem segments_parse_i32_boundary :
    Segments.parse ("2147483647".toList) = none ∧
    Segments.parse ("0-2147483647".toList) = none ∧
    wrap32 (i32max + 1) = -2147483648 ∧
    (∀ l seg, Segments.parse l = some seg → seg.idsStart < seg.idsEnd) := by
  refine ⟨by decide, by decide, by decide, ?_⟩
  intro l seg h
  obtain ⟨caps, hc, hpi, h0, hlt, -, -, -, -, -⟩ := parse_spec l seg h
  exact hlt

theorem segments_parse_i32_boundary_witness :
    Segments.parse ("7".toList) = some ⟨7, 8, none, 0, none⟩ ∧
    (⟨7, 8, none, 0, none⟩ : Segments).idsStart < (⟨7, 8, none, 0, none⟩ : Segments).idsEnd :=
  have hp : Segments.parse ("7".toList) = some ⟨7, 8, none, 0, none⟩ := by decide
  ⟨hp, segments_parse_i32_boundary.2.2.2 ("7".toList) ⟨7, 8, none, 0, none⟩ hp⟩



-- ## Assembly contiguity (claim C1)

def expectedNext (s : Segments) : Option Int → Int
  | none => s.idsStart
  | some p => p + 1

def consecFrom (a : Int) : Nat → List Int
  | 0 => []
  | n + 1 => a :: consecFrom (a + 1) n

lemma segAppend_ok {s : Segments} {st : LoopSt} {r : Row} {st' : LoopSt}
    (h : segAppend s st r = .ok st') :
    st'.prev = some r.id ∧ st'.curOff = st.curOff + r.duration90k ∧
    (st'.segs = st.segs ∨ ∃ a b, st'.segs = st.segs ++ [⟨r.id, a, b⟩]) := by
  unfold segAppend at h
  dsimp only at h
  split at h
  · split at h
    · cases h; exact ⟨rfl, rfl, .inr ⟨_, _, rfl⟩⟩
    · simp at h
  · cases h; exact ⟨rfl, rfl, .inl rfl⟩

lemma segGapCheck_ok {streamId : Int} {s : Segments} {st : LoopSt} {r : Row} {st' : LoopSt}
    (h : segGapCheck streamId s st r = .ok st') :
    r.id = expectedNext s st.prev ∧ st'.prev = some r.id ∧
    st'.curOff = st.curOff + r.duration90k := by
  unfold segGapCheck at h
  cases hp : st.prev with
  | none =>
    rw [hp] at h; dsimp only at h
    split at h
    · have k := segAppend_ok h
      exact ⟨by assumption, k.1, k.2.1⟩
    · simp at h
  | some p =>
    rw [hp] at h; dsimp only at h
    split at h
    · simp at h
    next hne =>
      push_neg at hne
      have k := segAppend_ok h
      exact ⟨hne, k.1, k.2.1⟩

lemma segRowStep_ok {streamId : Int} {s : Segments} {st : LoopSt} {r : Row} {st' : LoopSt}
    (h : segRowStep streamId s st r = .ok st') :
    r.id = expectedNext s st.prev ∧ st'.prev = some r.id ∧
    st'.curOff = st.curOff + r.duration90k := by
  unfold segRowStep at h
  cases ho : s.openId with
  | none => rw [ho] at h; exact segGapCheck_ok h
  | some o =>
    rw [ho] at h; dsimp only at h
    split at h
    · simp at h
    · exact segGapCheck_ok h

lemma segLoop_ok_spec (streamId : Int) (s : Segments) :
    ∀ (rows : List Row) (st st' : LoopSt), segLoop streamId s st rows = .ok st' →
      rows.map Row.id = consecFrom (expectedNext s st.prev) rows.length ∧
      ((rows = [] ∧ st' = st) ∨
       (rows ≠ [] ∧ st'.prev = some (expectedNext s st.prev + rows.length - 1))) := by
  intro rows
  induction rows with
  | nil =>
    intro st st' h
    unfold segLoop at h
    cases h
    exact ⟨rfl, .inl ⟨rfl, rfl⟩⟩
  | cons r rest ih =>
    intro st st' h
    unfold segLoop at h
    cases hs : segRowStep streamId s st r with
    | error e => rw [hs] at h; simp at h
    | ok st₁ =>
      rw [hs] at h; dsimp only at h
      obtain ⟨hid, hprev, hcur⟩ := segRowStep_ok hs
      obtain ⟨hmap, hlast⟩ := ih st₁ st' h
      have hexp : expectedNext s st₁.prev = expectedNext s st.prev + 1 := by
        rw [hprev, hid]
        rfl
      refine ⟨?_, ?_⟩
      · show r.id :: rest.map Row.id = consecFrom (expectedNext s st.prev) (rest.length + 1)
        rw [hmap, hexp, hid]
        rfl
      · right
        refine ⟨by simp, ?_⟩
        rcases hlast with ⟨hrest, hst⟩ | ⟨hne, hp⟩
        · subst hrest
          rw [hst, hprev, hid]
          show some (expectedNext s st.prev) =
            some (expectedNext s st.prev + ((List.length ([] : List Row) + 1 : Nat) : Int) - 1)
          simp
        · rw [hp, hexp]
          show some (expectedNext s st.prev + 1 + (rest.length : Int) - 1) =
            some (expectedNext s st.prev + ((rest.length + 1 : Nat) : Int) - 1)
          push_cast
          ring_nf

lemma runSegs_ok_inv {streamId : Int} {s : Segments} {rows : List Row} {st : LoopSt}
    (h : runSegs streamId s rows = .ok st) :
    segLoop streamId s ⟨none, 0, []⟩ rows = .ok st ∧
    ∃ last, st.prev = some last ∧ s.idsEnd = last + 1 := by
  unfold runSegs at h
  cases hl : segLoop streamId s ⟨none, 0, []⟩ rows with
  | error e => rw [hl] at h; simp at h
  | ok st₀ =>
    rw [hl] at h; dsimp only at h
    cases hp : st₀.prev with
    | none => rw [hp] at h; simp at h
    | some last =>
      rw [hp] at h; dsimp only at h
      split at h
      · simp at h
      next hend =>
        have hend' : s.idsEnd = last + 1 := by
          by_contra hne
          exact hend hne
        cases he : s.endTime with
        | none =>
          rw [he] at h; dsimp only at h
          cases h
          exact ⟨rfl, last, hp, hend'⟩
        | some e =>
          rw [he] at h; dsimp only at h
          split at h
          · simp at h
          · cases h
            exact ⟨rfl, last, hp, hend'⟩

lemma consecFrom_getLast? (a : Int) (n : Nat) :
    (consecFrom a (n + 1)).getLast? = some (a + n) := by
  induction n generalizing a with
  | zero => simp [consecFrom]
  | succ m ih =>
    show (a :: (a + 1) :: consecFrom (a + 1 + 1) m).getLast? = some (a + (m + 1 : Nat))
    rw [List.getLast?_cons_cons]
    show (consecFrom (a + 1) (m + 1)).getLast? = some (a + (m + 1 : Nat))
    rw [ih (a + 1)]
    congr 1
    push_cast
    ring

lemma getLast?_map_row (f : Row → Int) (l : List Row) :
    (l.map f).getLast? = l.getLast?.map f := by
  induction l with
  | nil => rfl
  | cons a l ih =>
    cases l with
    | nil => rfl
    | cons b t =>
      rw [List.map_cons, List.map_cons, List.getLast?_cons_cons, List.getLast?_cons_cons,
        ← List.map_cons]
      exact ih

lemma scanl_head? (f : Int → Row → Int) (c : Int) (l : List Row) :
    (List.scanl f c l).head? = some c := by
  cases l <;> simp [List.scanl]

lemma scanl_chain_of_nonneg :
    ∀ (rows : List Row), (∀ r ∈ rows, 0 ≤ r.duration90k) → ∀ c : Int,
      List.Chain' (· ≤ ·) (List.scanl (fun c r => c + r.duration90k) c rows) := by
  intro rows
  induction rows with
  | nil => intro _ c; simp
  | cons r rest ih =>
    intro hd c
    rw [List.scanl_cons, List.singleton_append, List.chain'_cons']
    constructor
    · intro y hy
      rw [scanl_head?] at hy
      have hr := hd r (by simp)
      simp at hy
      omega
    · exact ih (fun x hx => hd x (by simp [hx])) (c + r.duration90k)

/-- Claim C1: for every segment assembly accepted by `stream_view_mp4`,
the recording rows visited are exactly ids `start, start + 1, ...,
end - 1` in ascending order — the first row is `start`, each following row
is the predecessor plus one and the last is `end - 1` (any deviation makes
the request fail, which is the contrapositive of this theorem) — and
`cur_off`, the running 90 kHz offset, never decreases across the
iteration (its trace is the `scanl` below; durations are nonnegative by
the database invariant). -/
theorem stream_view_mp4_contiguity (streamId : Int) (s : Segments) (rows : List Row)
    (st : LoopSt) (h : runSegs streamId s rows = .ok st)
    (hd : ∀ r ∈ rows, 0 ≤ r.duration90k) :
    rows.map Row.id = consecFrom s.idsStart (s.idsEnd - s.idsStart).toNat ∧
    rows.head?.map Row.id = some s.idsStart ∧
    rows.getLast?.map Row.id = some (s.idsEnd - 1) ∧
    List.Chain' (· ≤ ·) (List.scanl (fun c r => c + r.duration90k) 0 rows) := by
  obtain ⟨hl, last, hp, he⟩ := runSegs_ok_inv h
  obtain ⟨hmap, hcase⟩ := segLoop_ok_spec streamId s rows ⟨none, 0, []⟩ st hl
  have hexp : expectedNext s (⟨none, 0, []⟩ : LoopSt).prev = s.idsStart := rfl
  rw [hexp] at hmap hcase
  rcases hcase with ⟨hnil, hst⟩ | ⟨hne, hplast⟩
  · exfalso
    rw [hst] at hp
    simp at hp
  · rw [hp] at hplast
    have hlast : last = s.idsStart + (rows.length : Int) - 1 := by
      injection hplast
    have hlen : (rows.length : Int) = s.idsEnd - s.idsStart := by omega
    have hlenn : (s.idsEnd - s.idsStart).toNat = rows.length := by omega
    obtain ⟨r0, rest, hrows⟩ := List.exists_cons_of_ne_nil hne
    refine ⟨by rw [hlenn]; exact hmap, ?_, ?_, scanl_chain_of_nonneg rows hd 0⟩
    · subst hrows
      have hinj : r0.id :: rest.map Row.id =
          s.idsStart :: consecFrom (s.idsStart + 1) rest.length := by
        simpa [consecFrom] using hmap
      have h0 : r0.id = s.idsStart := by
        injection hinj
      simp [h0]
    · rw [← getLast?_map_row, hmap]
      subst hrows
      show (consecFrom s.idsStart (rest.length + 1)).getLast? = some (s.idsEnd - 1)
      rw [consecFrom_getLast?]
      simp only [List.length_cons] at hlen
      push_cast at hlen
      congr 1
      omega

theorem stream_view_mp4_contiguity_witness :
    runSegs 7 ⟨1, 3, none, 0, none⟩ ([⟨1, 0, 10, true⟩, ⟨2, 0, 20, true⟩] : List Row) =
      .ok ⟨some 2, 30, [⟨1, 0, 10⟩, ⟨2, 0, 20⟩]⟩ ∧
    List.map Row.id ([⟨1, 0, 10, true⟩, ⟨2, 0, 20, true⟩] : List Row) = consecFrom 1 2 ∧
    List.Chain' (· ≤ ·)
      (List.scanl (fun c r => c + r.duration90k) 0
        ([⟨1, 0, 10, true⟩, ⟨2, 0, 20, true⟩] : List Row)) :=
  have hr : runSegs 7 ⟨1, 3, none, 0, none⟩ ([⟨1, 0, 10, true⟩, ⟨2, 0, 20, true⟩] : List Row) =
      .ok ⟨some 2, 30, [⟨1, 0, 10⟩, ⟨2, 0, 20⟩]⟩ := by rfl
  have h := stream_view_mp4_contiguity 7 ⟨1, 3, none, 0, none⟩
    ([⟨1, 0, 10, true⟩, ⟨2, 0, 20, true⟩] : List Row) ⟨some 2, 30, [⟨1, 0, 10⟩, ⟨2, 0, 20⟩]⟩ hr
    (by decide)
  ⟨hr, h.1, h.2.2.2⟩



-- ## Segment append decision and missing-recording statuses (claims C3 and C4)

/-- Claim C3, amended: a row with duration `d` at offset `cur_off` is
appended iff `start_time ≤ cur_off + d ∧ cur_off < end_time` (the code
test, which unlike a non-empty-intersection test also fires when
`start_time = cur_off + d`, appending an empty subrange), and when
appended its local subrange is
`[max(0, start_time - cur_off), min(d, end_time - cur_off))`; otherwise
the row is skipped. -/
theorem segment_append_condition (s : Segments) (st : LoopSt) (r : Row)
    (hap : r.appendOk = true) :
    (segAppend s st r =
        .ok ⟨some r.id, st.curOff + r.duration90k,
          st.segs ++ [⟨r.id, max 0 (s.startTime - st.curOff),
            min r.duration90k (s.endTime.getD i64max - st.curOff)⟩]⟩
      ↔ (s.startTime ≤ st.curOff + r.duration90k ∧ st.curOff < s.endTime.getD i64max)) ∧
    (segAppend s st r = .ok ⟨some r.id, st.curOff + r.duration90k, st.segs⟩
      ↔ ¬ (s.startTime ≤ st.curOff + r.duration90k ∧ st.curOff < s.endTime.getD i64max)) := by
  by_cases hcond : (s.startTime ≤ st.curOff + r.duration90k ∧ st.curOff < s.endTime.getD i64max)
  · simp [segAppend, hap, hcond]
  · simp [segAppend, hap, hcond]

/-- Claim C3 counterexample: for `s=1.1-` and a single recording of
duration 1, the interval `[cur_off, cur_off + d) = [0, 1)` has empty
intersection with `[start_time, ∞) = [1, ∞)` — the nonemptiness test
`max(cur_off, start_time) < min(cur_off + d, end_time)` fails — yet the
code appends the recording (with empty subrange `[1, 1)`), refuting
"appended if and only if the intersection is non-empty". -/
theorem segment_append_empty_intersection_counterexample :
    Segments.parse ("1.1-".toList) = some ⟨1, 2, none, 1, none⟩ ∧
    runSegs 5 ⟨1, 2, none, 1, none⟩ ([⟨1, 0, 1, true⟩] : List Row) =
      .ok ⟨some 1, 1, [⟨1, 1, 1⟩]⟩ ∧
    ¬ (max (0 : Int) 1 < min (0 + 1) ((⟨1, 2, none, 1, none⟩ : Segments).endTime.getD i64max)) :=
  ⟨by decide, by rfl, by decide⟩

theorem segment_append_condition_witness :
    segAppend ⟨1, 2, none, 0, none⟩ ⟨none, 0, []⟩ ⟨1, 0, 10, true⟩ =
      .ok ⟨some 1, 10, [⟨1, 0, 10⟩]⟩ ∧ (0 : Int) ≤ 0 + 10 ∧ (0 : Int) < i64max :=
  have h := (segment_append_condition ⟨1, 2, none, 0, none⟩ ⟨none, 0, []⟩ ⟨1, 0, 10, true⟩ rfl).1
  have hc : (0 : Int) ≤ 0 + 10 ∧ (0 : Int) < i64max := by decide
  ⟨by exact h.mpr hc, hc⟩

lemma segRowStep_ok_of {streamId : Int} {s : Segments} (st : LoopSt) (r : Row)
    (hopen : s.openId = none) (hid : r.id = expectedNext s st.prev) (hap : r.appendOk = true) :
    ∃ segs, segRowStep streamId s st r = .ok ⟨some r.id, st.curOff + r.duration90k, segs⟩ := by
  unfold segRowStep
  rw [hopen]
  unfold segGapCheck
  cases hp : st.prev with
  | none =>
    rw [hp] at hid
    dsimp only
    rw [if_pos (show r.id = s.idsStart from hid)]
    unfold segAppend
    dsimp only
    rw [hap]
    split
    · exact ⟨_, by rw [if_pos rfl]⟩
    · exact ⟨_, rfl⟩
  | some p =>
    rw [hp] at hid
    dsimp only
    rw [if_neg (not_not_intro (show r.id = p + 1 from hid))]
    unfold segAppend
    dsimp only
    rw [hap]
    split
    · exact ⟨_, by rw [if_pos rfl]⟩
    · exact ⟨_, rfl⟩

lemma segRowStep_gap_first {streamId : Int} {s : Segments} (st : LoopSt) (r : Row)
    (hopen : s.openId = none) (hp : st.prev = none) (hne : r.id ≠ s.idsStart) :
    segRowStep streamId s st r = .error (.gap streamId s.idsStart) := by
  unfold segRowStep
  rw [hopen]
  unfold segGapCheck
  rw [hp]
  dsimp only
  exact if_neg hne

lemma segRowStep_gap_succ {streamId : Int} {s : Segments} (st : LoopSt) (r : Row) (p : Int)
    (hopen : s.openId = none) (hp : st.prev = some p) (hne : r.id ≠ p + 1) :
    segRowStep streamId s st r = .error (.gap streamId (p + 1)) := by
  unfold segRowStep
  rw [hopen]
  unfold segGapCheck
  rw [hp]
  dsimp only
  exact if_pos hne

lemma segLoop_ok_of_consec {streamId : Int} {s : Segments} (hopen : s.openId = none) :
    ∀ (rows : List Row) (st : LoopSt),
      (∀ r ∈ rows, r.appendOk = true) →
      rows.map Row.id = consecFrom (expectedNext s st.prev) rows.length →
      ∃ st', segLoop streamId s st rows = .ok st' ∧
        st'.prev = (if rows.isEmpty then st.prev
                    else some (expectedNext s st.prev + rows.length - 1)) ∧
        (rows.isEmpty = true → st' = st) := by
  intro rows
  induction rows with
  | nil =>
    intro st _ _
    exact ⟨st, rfl, by simp, fun _ => rfl⟩
  | cons r rest ih =>
    intro st hap hmap
    simp only [List.map_cons, List.length_cons, consecFrom] at hmap
    have hid : r.id = expectedNext s st.prev := (List.cons.injEq _ _ _ _ ▸ hmap).1
    have hrest : rest.map Row.id = consecFrom (expectedNext s st.prev + 1) rest.length :=
      (List.cons.injEq _ _ _ _ ▸ hmap).2
    obtain ⟨segs, hstep⟩ := segRowStep_ok_of st r hopen hid (hap r (by simp))
    have hmap' : rest.map Row.id =
        consecFrom (expectedNext s (⟨some r.id, st.curOff + r.duration90k, segs⟩ : LoopSt).prev)
          rest.length := by
      show rest.map Row.id = consecFrom (r.id + 1) rest.length
      rw [hid]
      exact hrest
    obtain ⟨st', hloop, hprev, -⟩ :=
      ih ⟨some r.id, st.curOff + r.duration90k, segs⟩ (fun x hx => hap x (by simp [hx])) hmap'
    refine ⟨st', ?_, ?_, by simp⟩
    · unfold segLoop
      rw [hstep]
      exact hloop
    · rw [hprev]
      cases rest with
      | nil => simp [hid]
      | cons b t =>
        simp only [List.isEmpty_cons, if_neg]
        show some (expectedNext s (some r.id) + ((b :: t).length : Int) - 1) =
          some (expectedNext s st.prev + ((b :: t).length + 1 : Nat) - 1)
        have : expectedNext s (some r.id) = r.id + 1 := rfl
        rw [this, hid]
        congr 1
        push_cast
        ring

lemma segLoop_cons (streamId : Int) (s : Segments) (st : LoopSt) (r : Row) (rest : List Row) :
    segLoop streamId s st (r :: rest) =
      (match segRowStep streamId s st r with
       | .error e => .error e
       | .ok st₁ => segLoop streamId s st₁ rest) := rfl

lemma segLoop_append (streamId : Int) (s : Segments) (xs ys : List Row) :
    ∀ st : LoopSt, segLoop streamId s st (xs ++ ys) =
      (match segLoop streamId s st xs with
       | .error e => .error e
       | .ok st₁ => segLoop streamId s st₁ ys) := by
  induction xs with
  | nil => intro st; rfl
  | cons r t ih =>
    intro st
    rw [List.cons_append, segLoop_cons, segLoop_cons]
    cases hs : segRowStep streamId s st r with
    | error e => rfl
    | ok st₁ =>
      dsimp only
      exact ih st₁

/-- Claim C4 counterexample: a gap detected during iteration (first row id
2 ≠ start 1) is reported through `bail!` inside the closure, which
`stream_view_mp4` maps with `.map_err(internal_server_err)`: the response
status is 500, not 404, refuting the claim that every missing-recording
case yields 404. -/
theorem missing_recording_status_counterexample :
    Segments.parse ("1".toList) = some ⟨1, 2, none, 0, none⟩ ∧
    runSegs 5 ⟨1, 2, none, 0, none⟩ ([⟨2, 0, 1, true⟩] : List Row) =
      .error (plainResponse 500 ("no such recording 5/1")) ∧
    (500 : Nat) ≠ 404 :=
  ⟨by decide, by rfl, by decide⟩

/-- Claim C4, amended: gaps detected after the iteration (empty result, or
last id short of `end - 1`) yield 404 with a "no such recording" body;
gaps detected during the iteration (first id differing from `start`, or a
skipped successor) carry the same "no such recording" message but are
mapped by `internal_server_err` to status 500. -/
theorem missing_recording_responses (streamId : Int) (s : Segments) :
    (runSegs streamId s [] =
      .error (notFound ("no such recording " ++ toString streamId ++ "/" ++
        toString s.idsStart))) ∧
    (∀ rows : List Row, s.openId = none → (∀ r ∈ rows, r.appendOk = true) →
      rows ≠ [] →
      rows.map Row.id = consecFrom s.idsStart rows.length →
      s.idsStart + (rows.length : Int) ≠ s.idsEnd →
      runSegs streamId s rows =
        .error (notFound ("no such recording " ++ toString streamId ++ "/" ++
          toString (s.idsEnd - 1)))) ∧
    (∀ (r : Row) (rest : List Row), s.openId = none → r.id ≠ s.idsStart →
      runSegs streamId s (r :: rest) =
        .error (internalServerErr ("no such recording " ++ toString streamId ++ "/" ++
          toString s.idsStart))) ∧
    (∀ (pre : List Row) (r : Row) (rest : List Row), s.openId = none →
      (∀ x ∈ pre, x.appendOk = true) → pre ≠ [] →
      pre.map Row.id = consecFrom s.idsStart pre.length →
      r.id ≠ s.idsStart + (pre.length : Int) →
      runSegs streamId s (pre ++ r :: rest) =
        .error (internalServerErr ("no such recording " ++ toString streamId ++ "/" ++
          toString (s.idsStart + (pre.length : Int))))) := by
  refine ⟨rfl, ?_, ?_, ?_⟩
  · intro rows hopen hap hne hmap hshort
    obtain ⟨st', hloop, hprev, -⟩ := segLoop_ok_of_consec hopen rows ⟨none, 0, []⟩ hap hmap
    have hprev' : st'.prev = some (s.idsStart + (rows.length : Int) - 1) := by
      rw [hprev]
      simp [hne, expectedNext]
    unfold runSegs
    rw [hloop]
    dsimp only
    rw [hprev']
    dsimp only
    rw [if_pos (show s.idsEnd ≠ s.idsStart + (rows.length : Int) - 1 + 1 by omega)]
  · intro r rest hopen hne
    unfold runSegs
    rw [segLoop_cons, segRowStep_gap_first ⟨none, 0, []⟩ r hopen rfl hne]
    rfl
  · intro pre r rest hopen hap hne hmap hneid
    obtain ⟨st', hloop, hprev, -⟩ := segLoop_ok_of_consec hopen pre ⟨none, 0, []⟩ hap hmap
    have hprev' : st'.prev = some (s.idsStart + (pre.length : Int) - 1) := by
      rw [hprev]
      simp [hne, expectedNext]
    unfold runSegs
    rw [segLoop_append]
    rw [hloop]
    dsimp only
    rw [segLoop_cons,
      segRowStep_gap_succ st' r (s.idsStart + (pre.length : Int) - 1) hopen hprev'
        (show r.id ≠ s.idsStart + (pre.length : Int) - 1 + 1 by omega)]
    dsimp only
    have harith : s.idsStart + (pre.length : Int) - 1 + 1 = s.idsStart + (pre.length : Int) := by
      ring
    rw [harith]
    rfl

theorem missing_recording_responses_witness :
    runSegs 5 ⟨1, 3, none, 0, none⟩ ([⟨1, 0, 1, true⟩] : List Row) =
      .error (notFound ("no such recording 5/2")) :=
  have h := (missing_recording_responses 5 ⟨1, 3, none, 0, none⟩).2.1
    ([⟨1, 0, 1, true⟩] : List Row) rfl (by decide) (by decide) (by rfl) (by decide)
  by
    rw [h]
    rfl



-- ## Cookie extraction and authentication (claims C10 and C5)

lemma findSome?_none_iff {α β : Type} (f : α → Option β) :
    ∀ l : List α, l.findSome? f = none ↔ ∀ x ∈ l, f x = none := by
  intro l
  induction l with
  | nil => simp [List.findSome?]
  | cons a t ih =>
    cases hf : f a with
    | some v => simp [List.findSome?, hf]
    | none => simp [List.findSome?, hf, ih]

lemma findSome?_some_iff {α β : Type} (f : α → Option β) (b : β) :
    ∀ l : List α, l.findSome? f = some b ↔
      ∃ pre x post, l = pre ++ x :: post ∧ (∀ y ∈ pre, f y = none) ∧ f x = some b := by
  intro l
  induction l with
  | nil => simp [List.findSome?]
  | cons a t ih =>
    cases hf : f a with
    | some v =>
      simp only [List.findSome?, hf]
      constructor
      · intro hv
        exact ⟨[], a, t, rfl, by simp, by rw [hf]; exact hv⟩
      · rintro ⟨pre, x, post, hsplit, hpre, hx⟩
        cases pre with
        | nil =>
          simp only [List.nil_append] at hsplit
          injection hsplit with h1 h2
          subst h1
          rw [hf] at hx
          exact hx
        | cons p pt =>
          injection hsplit with h1 h2
          subst h1
          rw [hpre a (by simp)] at hf
          exact absurd hf (by simp)
    | none =>
      simp only [List.findSome?, hf]
      rw [ih]
      constructor
      · rintro ⟨pre, x, post, rfl, hpre, hx⟩
        refine ⟨a :: pre, x, post, rfl, ?_, hx⟩
        intro y hy
        rcases List.mem_cons.mp hy with rfl | hy2
        · exact hf
        · exact hpre y hy2
      · rintro ⟨pre, x, post, hsplit, hpre, hx⟩
        cases pre with
        | nil =>
          simp only [List.nil_append] at hsplit
          injection hsplit with h1 h2
          subst h1
          rw [hf] at hx
          exact absurd hx (by simp)
        | cons p pt =>
          injection hsplit with h1 h2
          subst h1
          exact ⟨pt, x, post, h2, fun y hy => hpre y (by simp [hy]), hx⟩

/-- Claim C10: `extract_sid` scans every semicolon-separated cookie of the
header (each trimmed of one leading space inside `tryCookie`): it returns
`none` iff no `s=`-prefixed cookie decodes, and returns `some v` iff some
cookie decodes to `v` while every earlier cookie — including `s=`-prefixed
ones whose base64 decode fails — yields nothing. -/
theorem extract_sid_scans_all {σ : Type} (dec : List Char → Option σ) (hdr : List Char) :
    (extract_sid dec (some hdr) = none ↔ ∀ c ∈ splitSemi hdr, tryCookie dec c = none) ∧
    (∀ v : σ, extract_sid dec (some hdr) = some v ↔
      ∃ pre c post, splitSemi hdr = pre ++ c :: post ∧
        (∀ c' ∈ pre, tryCookie dec c' = none) ∧ tryCookie dec c = some v) ∧
    extract_sid dec none = none := by
  refine ⟨?_, ?_, rfl⟩
  · exact findSome?_none_iff _ _
  · intro v
    exact findSome?_some_iff _ _ _

/-- Claim C5: `authenticate` resolves the caller in order: a cookie session
authenticated by the database wins and carries its permissions and
descriptor; otherwise a configured anonymous permission set is used with
no session; otherwise `unauth_path` yields empty permissions and no
session; otherwise the result is an `Unauthenticated` error, which
`from_base_error` maps to HTTP 401. -/
theorem authenticate_order {σ : Type} (ctx : AuthCtx σ) (hdr : Option (List Char)) (up : Bool) :
    (∀ sid perms sess, extract_sid ctx.sidDec hdr = some sid →
      ctx.dbAuth sid = some (perms, sess) →
      authenticate ctx hdr up = .ok ⟨perms, some sess⟩) ∧
    ((extract_sid ctx.sidDec hdr = none ∨
      (∃ sid, extract_sid ctx.sidDec hdr = some sid ∧ ctx.dbAuth sid = none)) →
      ((∀ a, ctx.anonPerms = some a → authenticate ctx hdr up = .ok ⟨a, none⟩) ∧
       (ctx.anonPerms = none → up = true → authenticate ctx hdr up = .ok ⟨{}, none⟩) ∧
       (ctx.anonPerms = none → up = false →
         ∃ e, authenticate ctx hdr up = .error e ∧ e.kind = .Unauthenticated ∧
           (from_base_error e).status = 401))) := by
  constructor
  · intro sid perms sess hsid hdb
    unfold authenticate
    rw [hsid]
    dsimp only
    rw [hdb]
  · intro hfail
    have hfb : authenticate ctx hdr up = authFallback ctx up := by
      unfold authenticate
      rcases hfail with hnone | ⟨sid, hsid, hdb⟩
      · rw [hnone]
      · rw [hsid]
        dsimp only
        rw [hdb]
    refine ⟨?_, ?_, ?_⟩
    · intro a ha
      rw [hfb]
      unfold authFallback
      rw [ha]
    · intro ha hup
      rw [hfb]
      unfold authFallback
      rw [ha, hup]
      rfl
    · intro ha hup
      rw [hfb]
      unfold authFallback
      rw [ha, hup]
      exact ⟨⟨.Unauthenticated, "unauthenticated"⟩, rfl, rfl, rfl⟩

theorem authenticate_order_witness :
    authenticate (⟨fun _ => some 0, fun _ => some (⟨true, false, false⟩, ⟨"u", "c"⟩),
        none⟩ : AuthCtx Nat) (some ("s=x".toList)) false =
      .ok ⟨⟨true, false, false⟩, some ⟨"u", "c"⟩⟩ ∧
    (from_base_error ⟨.Unauthenticated, "unauthenticated"⟩).status = 401 :=
  have h := (authenticate_order (⟨fun _ => some 0,
    fun _ => some (⟨true, false, false⟩, ⟨"u", "c"⟩), none⟩ : AuthCtx Nat)
    (some ("s=x".toList)) false).1 0 ⟨true, false, false⟩ ⟨"u", "c"⟩ (by rfl) rfl
  ⟨h, rfl⟩



-- ## Logout and response privacy headers (claims C6 and C7)

/-- Claim C6 counterexample: a logout request with a cookie present, whose
session authenticates but whose supplied CSRF token mismatches, returns
400 early — before the clearing `Set-Cookie: s=; Max-Age=0; Path=/` header
is appended — refuting "in any case where a cookie was present, the
response carries the clearing header". -/
theorem logout_clear_cookie_counterexample :
    logout (⟨fun _ => some 0, fun _ => some ⟨"u", "AAAA"⟩, true⟩ : LogoutCtx Nat)
      (some ("s=x".toList)) (some ("BBBB")) =
      (.error (badReq ("logout with incorrect csrf token")), none) ∧
    clearCookieHdr ∉ (badReq ("logout with incorrect csrf token")).headers :=
  ⟨by rfl, by decide⟩

/-- Claim C6, amended: when a cookie is present, the clearing header is set
and 204 returned if the session fails to authenticate, or if it
authenticates with matching CSRF and the revocation (reason `LoggedOut`)
succeeds; but a CSRF mismatch aborts with 400 and no clearing header (as
does a JSON body parse failure, and no cookie means no header). -/
theorem logout_behaviour {σ : Type} (ctx : LogoutCtx σ) (hdr : Option (List Char))
    (csrf : String) :
    (∀ sid s, extract_sid ctx.sidDec hdr = some sid → ctx.dbAuth sid = some s →
      csrfMatches csrf s.csrf = true → ctx.revokeOk = true →
      logout ctx hdr (some csrf) = (.ok ⟨204, [clearCookieHdr], ""⟩, some .LoggedOut)) ∧
    (∀ sid, extract_sid ctx.sidDec hdr = some sid → ctx.dbAuth sid = none →
      logout ctx hdr (some csrf) = (.ok ⟨204, [clearCookieHdr], ""⟩, none)) ∧
    (∀ sid s, extract_sid ctx.sidDec hdr = some sid → ctx.dbAuth sid = some s →
      csrfMatches csrf s.csrf = false →
      logout ctx hdr (some csrf) =
        (.error (badReq ("logout with incorrect csrf token")), none)) ∧
    (extract_sid ctx.sidDec hdr = none →
      logout ctx hdr (some csrf) = (.ok ⟨204, [], ""⟩, none)) ∧
    (logout ctx hdr none = (.error (badReq ("bad logout request json")), none)) := by
  refine ⟨?_, ?_, ?_, ?_, rfl⟩
  · intro sid s hsid hdb hcsrf hrev
    unfold logout
    rw [hsid]
    dsimp only
    rw [hdb]
    dsimp only
    rw [hcsrf, hrev]
    rfl
  · intro sid hsid hdb
    unfold logout
    rw [hsid]
    dsimp only
    rw [hdb]
  · intro sid s hsid hdb hcsrf
    unfold logout
    rw [hsid]
    dsimp only
    rw [hdb]
    dsimp only
    rw [hcsrf]
    rfl
  · intro hnone
    unfold logout
    rw [hnone]

theorem logout_behaviour_witness :
    logout (⟨fun _ => some 0, fun _ => some ⟨"u", "AAAA"⟩, true⟩ : LogoutCtx Nat)
      (some ("s=x".toList)) (some ("AAAA")) =
      (.ok ⟨204, [clearCookieHdr], ""⟩, some .LoggedOut) :=
  (logout_behaviour (⟨fun _ => some 0, fun _ => some ⟨"u", "AAAA"⟩, true⟩ : LogoutCtx Nat)
      (some ("s=x".toList)) ("AAAA")).1 0 ⟨"u", "AAAA"⟩ (by rfl) rfl (by decide) rfl

def serveCtxNoAuth : ServeCtx Unit Unit Unit :=
  ⟨⟨fun _ => none, fun _ => none, none⟩, fun _ => none, fun _ => none, fun _ => none,
    fun _ _ => .ok (plainResponse 200 (""))⟩

def serveCtxAnon : ServeCtx Unit Unit Unit :=
  ⟨⟨fun _ => none, fun _ => none, some ⟨false, false, false⟩⟩, fun _ => none, fun _ => none,
    fun _ => none, fun _ _ => .ok (plainResponse 200 (""))⟩

/-- Claim C7 counterexample: when authentication fails, `serve` returns
`from_base_error` directly without passing through `wrap`, so the 401
response of a non-`Static` route (here `/api/`, the `TopLevel` route)
does not carry `Cache-Control: private`. -/
theorem serve_cache_control_counterexample :
    Path.decode serveCtxNoAuth.uuidP serveCtxNoAuth.stP serveCtxNoAuth.deh ("/api/".toList) =
      .TopLevel ∧
    serve serveCtxNoAuth ⟨"/api/".toList, none⟩ = plainResponse 401 ("unauthenticated") ∧
    ("Cache-Control", "private") ∉ (plainResponse 401 ("unauthenticated")).headers :=
  ⟨by rfl, by rfl, by decide⟩

/-- Claim C7, amended: whenever authentication succeeds, every route other
than `Static` (success or error handler result alike) carries
`Cache-Control: private`; the authentication-failure response is served
without the header; and for `Static` the handler result is served
unchanged, so it never gains the header from `serve`. -/
theorem serve_cache_control {U S σ : Type} (ctx : ServeCtx U S σ) (req : Req) :
    (∀ caller, authenticate ctx.auth req.cookie
        (alwaysAllowUnauthenticated (Path.decode ctx.uuidP ctx.stP ctx.deh req.path)) =
          .ok caller →
      Path.decode ctx.uuidP ctx.stP ctx.deh req.path ≠ .Static →
      ("Cache-Control", "private") ∈ (serve ctx req).headers) ∧
    (∀ e, authenticate ctx.auth req.cookie
        (alwaysAllowUnauthenticated (Path.decode ctx.uuidP ctx.stP ctx.deh req.path)) =
          .error e →
      serve ctx req = from_base_error e ∧
      ("Cache-Control", "private") ∉ (from_base_error e).headers) ∧
    (Path.decode ctx.uuidP ctx.stP ctx.deh req.path = .Static →
      ∀ caller, authenticate ctx.auth req.cookie
          (alwaysAllowUnauthenticated (Path.decode ctx.uuidP ctx.stP ctx.deh req.path)) =
            .ok caller →
        serve ctx req =
          (match ctx.handler .Static caller with | .ok r => r | .error r => r)) := by
  refine ⟨?_, ?_, ?_⟩
  · intro caller hauth hne
    unfold serve
    dsimp only
    rw [hauth]
    dsimp only
    cases hp2 : Path.decode ctx.uuidP ctx.stP ctx.deh req.path <;>
      first
        | exact absurd hp2 hne
        | simp [wrap, insertHeader]
  · intro e hauth
    unfold serve
    dsimp only
    rw [hauth]
    refine ⟨rfl, ?_⟩
    intro hmem
    simp [from_base_error, plainResponse] at hmem
  · intro hp2 caller hauth
    unfold serve
    dsimp only
    rw [hauth]
    dsimp only
    rw [hp2]
    rfl

theorem serve_cache_control_witness :
    ("Cache-Control", "private") ∈ (serve serveCtxAnon ⟨"/api/".toList, none⟩).headers :=
  (serve_cache_control serveCtxAnon ⟨"/api/".toList, none⟩).1
    ⟨⟨false, false, false⟩, none⟩ (by rfl) (by decide)



-- ## Router (claim C8)

/-- The `/api/init/` branch of `Path::decode`, as a function of the
already-stripped path (which starts with `/init/`). -/
def initBranch {U S : Type} (deh : List Char → Option (List Nat)) (path : List Char) :
    Path U S :=
  let debug := ['.', 't', 'x', 't'].isSuffixOf path
  let path := if debug then path.take (path.length - 4) else path
  if path.length ≠ 50 ∨ ¬ (['.', 'm', 'p', '4'].isSuffixOf path) then .NotFound else
  match deh ((path.drop 6).take 40) with
  | some sha1 => .InitSegment sha1 debug
  | none => .NotFound

/-- The `/api/cameras/` branch of `Path::decode`, as a function of the path
remainder after the `/cameras/` prefix. -/
def camerasBranch {U S : Type} (uuidP : List Char → Option U) (stP : List Char → Option S)
    (path : List Char) : Path U S :=
  match path.findIdx? (fun c => c == '/') with
  | none => .NotFound
  | some slash =>
    let uuidStr := path.take slash
    let path := path.drop (slash + 1)
    match uuidP uuidStr with
    | none => .NotFound
    | some uuid =>
      if path.isEmpty then .Camera uuid else
      match path.findIdx? (fun c => c == '/') with
      | none => .NotFound
      | some slash2 =>
        let typeStr := path.take slash2
        let path := path.drop slash2
        match stP typeStr with
        | none => .NotFound
        | some t =>
          if path = ['/', 'r', 'e', 'c', 'o', 'r', 'd', 'i', 'n', 'g', 's'] then
            .StreamRecordings uuid t
          else if path = ['/', 'v', 'i', 'e', 'w', '.', 'm', 'p', '4'] then
            .StreamViewMp4 uuid t false
          else if path = ['/', 'v', 'i', 'e', 'w', '.', 'm', 'p', '4', '.', 't', 'x', 't'] then
            .StreamViewMp4 uuid t true
          else if path = ['/', 'v', 'i', 'e', 'w', '.', 'm', '4', 's'] then
            .StreamViewMp4Segment uuid t false
          else if path = ['/', 'v', 'i', 'e', 'w', '.', 'm', '4', 's', '.', 't', 'x', 't'] then
            .StreamViewMp4Segment uuid t true
          else if path = ['/', 'l', 'i', 'v', 'e', '.', 'm', '4', 's'] then
            .StreamLiveMp4Segments uuid t
          else .NotFound

lemma decode_init_eq {U S : Type} (uuidP : List Char → Option U) (stP : List Char → Option S)
    (deh : List Char → Option (List Nat)) (tail : List Char) :
    Path.decode uuidP stP deh (['/', 'a', 'p', 'i', '/', 'i', 'n', 'i', 't', '/'] ++ tail) =
      initBranch deh (['/', 'i', 'n', 'i', 't', '/'] ++ tail) := by
  unfold Path.decode initBranch
  simp [List.isPrefixOf]

lemma decode_cameras_eq {U S : Type} (uuidP : List Char → Option U)
    (stP : List Char → Option S) (deh : List Char → Option (List Nat)) (rest : List Char) :
    Path.decode uuidP stP deh
        (['/', 'a', 'p', 'i', '/', 'c', 'a', 'm', 'e', 'r', 'a', 's', '/'] ++ rest) =
      camerasBranch uuidP stP rest := by
  unfold Path.decode camerasBranch
  simp [List.isPrefixOf]

lemma decode_static_of_no_api {U S : Type} (uuidP : List Char → Option U)
    (stP : List Char → Option S) (deh : List Char → Option (List Nat)) (p : List Char)
    (h : (['/', 'a', 'p', 'i', '/'].isPrefixOf p) = false) :
    Path.decode uuidP stP deh p = .Static := by
  unfold Path.decode
  rw [h]
  rfl

lemma isSuffixOf_append_self (a l : List Char) : a.isSuffixOf (l ++ a) = true := by
  rw [List.isSuffixOf_iff_suffix]
  exact List.suffix_append l a

lemma isSuffixOf_append_ne {a b : List Char} (hl : a.length = b.length) (hne : a ≠ b)
    (l : List Char) : a.isSuffixOf (l ++ b) = false := by
  rw [Bool.eq_false_iff]
  intro hsuf
  obtain ⟨t, ht⟩ := (List.isSuffixOf_iff_suffix).mp hsuf
  exact hne (List.append_inj' ht hl).2

lemma dehex_length {l : List Char} {b : List Nat} (h : dehex l = some b) : l.length = 40 := by
  unfold dehex at h
  split at h
  · assumption
  · exact absurd h (by simp)

lemma drop_eq_of_isSuffixOf {a l : List Char} (h : a.isSuffixOf l = true) :
    l.drop (l.length - a.length) = a := by
  obtain ⟨t, ht⟩ := (List.isSuffixOf_iff_suffix).mp h
  rw [← ht]
  have hlen : (t ++ a).length - a.length = t.length := by simp
  rw [hlen, List.drop_left]

lemma initBranch_cases {U S : Type} (deh : List Char → Option (List Nat)) (path : List Char) :
    initBranch (U := U) (S := S) deh path = .NotFound ∨
      ∃ b d, initBranch (U := U) (S := S) deh path = .InitSegment b d := by
  unfold initBranch
  dsimp only
  split
  · split
    · exact .inl rfl
    · split
      · exact .inr ⟨_, _, rfl⟩
      · exact .inl rfl
  · split
    · exact .inl rfl
    · split
      · exact .inr ⟨_, _, rfl⟩
      · exact .inl rfl

lemma initBranch_init_inv {U S : Type} (deh : List Char → Option (List Nat))
    {tail : List Char} {b : List Nat} {d : Bool}
    (h : initBranch (U := U) (S := S) deh (['/', 'i', 'n', 'i', 't', '/'] ++ tail) =
      .InitSegment b d) :
    ∃ h40, deh h40 = some b ∧
      ((d = false ∧ tail = h40 ++ ['.', 'm', 'p', '4']) ∨
       (d = true ∧ tail = h40 ++ ['.', 'm', 'p', '4', '.', 't', 'x', 't'])) := by
  unfold initBranch at h
  dsimp only at h
  split at h
  next hdbg =>
    -- the path carries a final ".txt", which the code strips before the checks
    split at h
    · exact absurd h (by simp)
    next hcond =>
      push_neg at hcond
      obtain ⟨hl50, hsuf⟩ := hcond
      have hlen : tail.length = 48 := by
        simp at hl50
        omega
      have hn4 : (['/', 'i', 'n', 'i', 't', '/'] ++ tail).length - 4 = 50 := by
        simp [hlen]
      rw [hn4] at h hsuf
      have hp2 : (['/', 'i', 'n', 'i', 't', '/'] ++ tail).take 50 =
          ['/', 'i', 'n', 'i', 't', '/'] ++ tail.take 44 := by
        simp
      rw [hp2] at h hsuf
      have hm : (tail.take 44).drop 40 = ['.', 'm', 'p', '4'] := by
        have hdm := drop_eq_of_isSuffixOf hsuf
        have hlen2 : (['/', 'i', 'n', 'i', 't', '/'] ++ tail.take 44).length -
            (['.', 'm', 'p', '4'] : List Char).length = 46 := by
          simp [hlen]
        rw [hlen2] at hdm
        simpa using hdm
      have htxt : tail.drop 44 = ['.', 't', 'x', 't'] := by
        have hdm := drop_eq_of_isSuffixOf hdbg
        have hlen3 : (['/', 'i', 'n', 'i', 't', '/'] ++ tail).length -
            (['.', 't', 'x', 't'] : List Char).length = 50 := by
          simp [hlen]
        rw [hlen3] at hdm
        simpa using hdm
      have hX : (((['/', 'i', 'n', 'i', 't', '/'] ++ tail.take 44).drop 6).take 40) =
          tail.take 40 := by
        simp [List.take_take]
      rw [hX] at h
      cases hdeh : deh (tail.take 40) with
      | none => rw [hdeh] at h; exact absurd h (by simp)
      | some sha1 =>
        rw [hdeh] at h
        dsimp only at h
        rw [hdbg] at h
        injection h with hb hd
        refine ⟨tail.take 40, by rw [← hb]; exact hdeh, .inr ⟨hd.symm, ?_⟩⟩
        have ht44 : tail.take 44 = tail.take 40 ++ ['.', 'm', 'p', '4'] := by
          conv_lhs => rw [← List.take_append_drop 40 (tail.take 44)]
          rw [hm]
          simp [List.take_take]
        conv_lhs => rw [← List.take_append_drop 44 tail]
        rw [htxt, ht44, List.append_assoc]
        rfl
  next hdbg =>
    -- no ".txt" suffix: the path itself must be "/init/<40 hex>.mp4"
    split at h
    · exact absurd h (by simp)
    next hcond =>
      push_neg at hcond
      obtain ⟨hl50, hsuf⟩ := hcond
      have hlen : tail.length = 44 := by
        simp at hl50
        omega
      have hm : tail.drop 40 = ['.', 'm', 'p', '4'] := by
        have hdm := drop_eq_of_isSuffixOf hsuf
        have hlen2 : (['/', 'i', 'n', 'i', 't', '/'] ++ tail).length -
            (['.', 'm', 'p', '4'] : List Char).length = 46 := by
          simp [hlen]
        rw [hlen2] at hdm
        simpa using hdm
      have hX : ((['/', 'i', 'n', 'i', 't', '/'] ++ tail).drop 6).take 40 = tail.take 40 := by
        simp
      rw [hX] at h
      cases hdeh : deh (tail.take 40) with
      | none => rw [hdeh] at h; exact absurd h (by simp)
      | some sha1 =>
        rw [hdeh] at h
        dsimp only at h
        rw [Bool.not_eq_true] at hdbg
        rw [hdbg] at h
        injection h with hb hd
        refine ⟨tail.take 40, by rw [← hb]; exact hdeh, .inl ⟨hd.symm, ?_⟩⟩
        conv_lhs => rw [← List.take_append_drop 40 tail]
        rw [hm]

/-- Claim C8: `Path::decode` is total (exactly one route variant per path);
every path without the `/api/` prefix is `Static`; an API variant implies
the prefix; on camera routes a missing slash, an unparseable UUID segment
or an unknown stream-type token yields `NotFound`; and
`/api/init/<40 hex>.mp4` yields `InitSegment` with the 20 decoded bytes
(`debug = false`; the further `.txt` suffix gives `debug = true`), while
every other `/api/init/` path yields `NotFound`: an `InitSegment` result
arises only from a tail of one of those two exact shapes with a
successfully decoding 40-hex segment, so any tail of another shape —
wrong length, non-hex characters, or a stray suffix — decodes to
`NotFound`. -/
theorem path_decode_spec {U : Type} (uuidP : List Char → Option U) :
    (∀ p : List Char, ∃! v, Path.decode uuidP StreamType.parse dehex p = v) ∧
    (∀ p : List Char, (['/', 'a', 'p', 'i', '/'].isPrefixOf p) = false →
      Path.decode uuidP StreamType.parse dehex p = .Static) ∧
    (∀ p : List Char, Path.decode uuidP StreamType.parse dehex p ≠ .Static →
      (['/', 'a', 'p', 'i', '/'].isPrefixOf p) = true) ∧
    (∀ rest : List Char, rest.findIdx? (fun c => c == '/') = none →
      Path.decode uuidP StreamType.parse dehex
        (['/', 'a', 'p', 'i', '/', 'c', 'a', 'm', 'e', 'r', 'a', 's', '/'] ++ rest) =
        .NotFound) ∧
    (∀ (rest : List Char) (slash : Nat), rest.findIdx? (fun c => c == '/') = some slash →
      uuidP (rest.take slash) = none →
      Path.decode uuidP StreamType.parse dehex
        (['/', 'a', 'p', 'i', '/', 'c', 'a', 'm', 'e', 'r', 'a', 's', '/'] ++ rest) =
        .NotFound) ∧
    (∀ (rest : List Char) (slash : Nat) (uuid : U) (slash2 : Nat),
      rest.findIdx? (fun c => c == '/') = some slash →
      uuidP (rest.take slash) = some uuid →
      (rest.drop (slash + 1)).findIdx? (fun c => c == '/') = some slash2 →
      StreamType.parse ((rest.drop (slash + 1)).take slash2) = none →
      Path.decode uuidP StreamType.parse dehex
        (['/', 'a', 'p', 'i', '/', 'c', 'a', 'm', 'e', 'r', 'a', 's', '/'] ++ rest) =
        .NotFound) ∧
    (∀ (h40 : List Char) (bytes : List Nat), dehex h40 = some bytes →
      Path.decode uuidP StreamType.parse dehex
          (['/', 'a', 'p', 'i', '/', 'i', 'n', 'i', 't', '/'] ++ (h40 ++ ['.', 'm', 'p', '4'])) =
        .InitSegment bytes false ∧
      Path.decode uuidP StreamType.parse dehex
          (['/', 'a', 'p', 'i', '/', 'i', 'n', 'i', 't', '/'] ++
            (h40 ++ ['.', 'm', 'p', '4', '.', 't', 'x', 't'])) =
        .InitSegment bytes true) ∧
    (∀ tail : List Char,
      Path.decode uuidP StreamType.parse dehex
          (['/', 'a', 'p', 'i', '/', 'i', 'n', 'i', 't', '/'] ++ tail) = .NotFound ∨
      ∃ b d, Path.decode uuidP StreamType.parse dehex
          (['/', 'a', 'p', 'i', '/', 'i', 'n', 'i', 't', '/'] ++ tail) = .InitSegment b d) ∧
    (∀ (tail : List Char) (b : List Nat) (d : Bool),
      Path.decode uuidP StreamType.parse dehex
          (['/', 'a', 'p', 'i', '/', 'i', 'n', 'i', 't', '/'] ++ tail) = .InitSegment b d →
      ∃ h40, dehex h40 = some b ∧
        ((d = false ∧ tail = h40 ++ ['.', 'm', 'p', '4']) ∨
         (d = true ∧ tail = h40 ++ ['.', 'm', 'p', '4', '.', 't', 'x', 't']))) ∧
    (∀ tail : List Char,
      (∀ (h40 : List Char) (bytes : List Nat), dehex h40 = some bytes →
        tail ≠ h40 ++ ['.', 'm', 'p', '4'] ∧
        tail ≠ h40 ++ ['.', 'm', 'p', '4', '.', 't', 'x', 't']) →
      Path.decode uuidP StreamType.parse dehex
        (['/', 'a', 'p', 'i', '/', 'i', 'n', 'i', 't', '/'] ++ tail) = .NotFound) := by
  refine ⟨?_, ?_, ?_, ?_, ?_, ?_, ?_, ?_, ?_, ?_⟩
  · intro p
    exact ⟨Path.decode uuidP StreamType.parse dehex p, rfl, fun y hy => hy.symm⟩
  · intro p h
    exact decode_static_of_no_api uuidP StreamType.parse dehex p h
  · intro p h
    cases hb : (['/', 'a', 'p', 'i', '/'].isPrefixOf p) with
    | false => exact absurd (decode_static_of_no_api uuidP StreamType.parse dehex p hb) h
    | true => rfl
  · intro rest hfind
    rw [decode_cameras_eq]
    unfold camerasBranch
    rw [hfind]
  · intro rest slash hfind huuid
    rw [decode_cameras_eq]
    unfold camerasBranch
    rw [hfind]
    dsimp only
    rw [huuid]
  · intro rest slash uuid slash2 hfind huuid hfind2 hst
    rw [decode_cameras_eq]
    unfold camerasBranch
    rw [hfind]
    dsimp only
    rw [huuid]
    dsimp only
    have hne : (rest.drop (slash + 1)).isEmpty = false := by
      cases hd : rest.drop (slash + 1) with
      | nil => rw [hd] at hfind2; simp [List.findIdx?] at hfind2
      | cons a t => simp
    simp only [hne, Bool.false_eq_true, if_false]
    rw [hfind2]
    dsimp only
    rw [hst]
  · intro h40 bytes hb
    have hlen : h40.length = 40 := dehex_length hb
    constructor
    · rw [decode_init_eq]
      unfold initBranch
      have hdbg : (['.', 't', 'x', 't'].isSuffixOf
          (['/', 'i', 'n', 'i', 't', '/'] ++ (h40 ++ ['.', 'm', 'p', '4']))) = false := by
        rw [← List.append_assoc]
        exact isSuffixOf_append_ne (by decide) (by decide) _
      have hmp4 : (['.', 'm', 'p', '4'].isSuffixOf
          (['/', 'i', 'n', 'i', 't', '/'] ++ (h40 ++ ['.', 'm', 'p', '4']))) = true := by
        rw [← List.append_assoc]
        exact isSuffixOf_append_self _ _
      have hlen50 :
          (['/', 'i', 'n', 'i', 't', '/'] ++ (h40 ++ ['.', 'm', 'p', '4'])).length = 50 := by
        simp [hlen]
      have htake :
          (((['/', 'i', 'n', 'i', 't', '/'] ++ (h40 ++ ['.', 'm', 'p', '4'])).drop 6).take 40) =
            h40 := by
        have hdrop :
            (['/', 'i', 'n', 'i', 't', '/'] ++ (h40 ++ ['.', 'm', 'p', '4'])).drop 6 =
              h40 ++ ['.', 'm', 'p', '4'] := by
          simp
        rw [hdrop, List.take_left' hlen]
      simp only [hdbg, Bool.false_eq_true, if_false, hlen50, hmp4, htake, hb]
      simp
    · rw [decode_init_eq]
      unfold initBranch
      have hassoc : ['/', 'i', 'n', 'i', 't', '/'] ++ (h40 ++ ['.', 'm', 'p', '4', '.', 't', 'x', 't']) =
          (['/', 'i', 'n', 'i', 't', '/'] ++ (h40 ++ ['.', 'm', 'p', '4'])) ++ ['.', 't', 'x', 't'] := by
        simp
      rw [hassoc]
      have hdbg : (['.', 't', 'x', 't'].isSuffixOf
          ((['/', 'i', 'n', 'i', 't', '/'] ++ (h40 ++ ['.', 'm', 'p', '4'])) ++
            ['.', 't', 'x', 't'])) = true :=
        isSuffixOf_append_self _ _
      have hlen50 :
          (['/', 'i', 'n', 'i', 't', '/'] ++ (h40 ++ ['.', 'm', 'p', '4'])).length = 50 := by
        simp [hlen]
      have hlen54 :
          ((['/', 'i', 'n', 'i', 't', '/'] ++ (h40 ++ ['.', 'm', 'p', '4'])) ++
            ['.', 't', 'x', 't']).length - 4 = 50 := by
        simp [hlen]
      have htakeA :
          ((['/', 'i', 'n', 'i', 't', '/'] ++ (h40 ++ ['.', 'm', 'p', '4'])) ++
              ['.', 't', 'x', 't']).take 50 =
            ['/', 'i', 'n', 'i', 't', '/'] ++ (h40 ++ ['.', 'm', 'p', '4']) :=
        List.take_left' hlen50
      have hmp4 : (['.', 'm', 'p', '4'].isSuffixOf
          (['/', 'i', 'n', 'i', 't', '/'] ++ (h40 ++ ['.', 'm', 'p', '4']))) = true := by
        rw [← List.append_assoc]
        exact isSuffixOf_append_self _ _
      have htake :
          (((['/', 'i', 'n', 'i', 't', '/'] ++ (h40 ++ ['.', 'm', 'p', '4'])).drop 6).take 40) =
            h40 := by
        have hdrop :
            (['/', 'i', 'n', 'i', 't', '/'] ++ (h40 ++ ['.', 'm', 'p', '4'])).drop 6 =
              h40 ++ ['.', 'm', 'p', '4'] := by
          simp
        rw [hdrop, List.take_left' hlen]
      simp only [hdbg, if_true, hlen54, htakeA, hlen50, hmp4, htake, hb]
      simp
  · intro tail
    rw [decode_init_eq]
    unfold initBranch
    dsimp only
    split
    · split
      · exact .inl rfl
      · split
        · right
          exact ⟨_, _, rfl⟩
        · exact .inl rfl
    · split
      · exact .inl rfl
      · split
        · right
          exact ⟨_, _, rfl⟩
        · exact .inl rfl
  · intro tail b d h
    rw [decode_init_eq] at h
    exact initBranch_init_inv dehex h
  · intro tail hmal
    rw [decode_init_eq]
    rcases initBranch_cases (U := U) (S := StreamType) dehex
        (['/', 'i', 'n', 'i', 't', '/'] ++ tail) with hnf | ⟨b, d, hbd⟩
    · exact hnf
    · exfalso
      obtain ⟨h40, hdeh, hcase⟩ := initBranch_init_inv dehex hbd
      rcases hcase with ⟨-, htl⟩ | ⟨-, htl⟩
      · exact (hmal h40 b hdeh).1 htl
      · exact (hmal h40 b hdeh).2 htl

theorem path_decode_spec_witness :
    Path.decode (fun _ => (none : Option Unit)) StreamType.parse dehex
        (['/', 'a', 'p', 'i', '/', 'i', 'n', 'i', 't', '/'] ++
          ("07cec464126825088ea86a07eddd6a00afa71559".toList ++ ['.', 'm', 'p', '4'])) =
      .InitSegment [7, 206, 196, 100, 18, 104, 37, 8, 142, 168, 106, 7, 237, 221, 106, 0,
        175, 167, 21, 89] false :=
  ((path_decode_spec (fun _ => (none : Option Unit))).2.2.2.2.2.2.1
    ("07cec464126825088ea86a07eddd6a00afa71559".toList)
    [7, 206, 196, 100, 18, 104, 37, 8, 142, 168, 106, 7, 237, 221, 106, 0, 175, 167, 21, 89]
    (by rfl)).1


end Web
